import Mathlib

/-!
Shallow embedding of `src/lib/dataset.py` (CMU-MultimodalDataSDK): the
`Dataset` class's manifest validation (`controller`/`validate_file`), the
per-format feature loaders (`load_opensmile`, `load_covarep`, `load_phonemes`,
`load_embeddings`, `load_words`, `load_openface`, `load_old_facet`,
`load_facet`, `load_facet1`, `load_facet2`, `load_misc`), and the
cross-modality alignment engine (`align`, `get_alignments`, `align_modality`).

Modelling conventions:
* Timestamps and feature values are exact rationals (`ℚ`); numpy vectors are
  `List ℚ`.
* Python dictionaries are association lists; `dict[k]` lookup that can raise
  `KeyError` is `alookup` returning `Option`.
* Fatal Python exceptions (`KeyError`, `NameError`, `TypeError`, `IndexError`,
  `ValueError`) are `Except PyErr` values.
* File I/O is modelled by passing the parsed file contents to the loader: a
  text file is the list of its comma-split numeric lines up to the first blank
  line (the loaders `break` at the first blank line), a `.mat` file is its
  `features` matrix as a list of rows.
-/

deriving instance DecidableEq for Except

set_option synthInstance.maxSize 1000

namespace Dataset

/-- Python exceptions raised by `dataset.py`, as values. -/
inductive PyErr where
  | keyError (video segment : String)
  | nameError (video segment : String)
  | typeError
  | indexError
  | valueError (s : String)
deriving DecidableEq, Repr

/-- A numpy float vector. -/
abbrev Vec := List ℚ

/-- One feature tuple `(feat_start, feat_end, feat_val)`. -/
structure FeatInterval where
  s : ℚ
  e : ℚ
  v : Vec
deriving DecidableEq, Repr

abbrev FeatureStream := List FeatInterval

/-- `video → segment → stored loader result` (the loaders may return `None`,
hence the inner `Option`). -/
abbrev SegDict := List (String × Option FeatureStream)

abbrev ModalityDict := List (String × SegDict)

/-- The `(start, end)` pairs of one segment of the pivot modality. -/
abbrev Grid := List (ℚ × ℚ)

abbrev Alignments := List (String × List (String × Grid))

abbrev AlignedOut := List (String × List (String × FeatureStream))

/-- The `warning_hist` set of `align_modality` (insertion order kept). -/
abbrev Hist := List (String × String)

/-- Python `dict` lookup on an association list. -/
def alookup {α : Type} (k : String) : List (String × α) → Option α
  | [] => none
  | (k', x) :: rest => if k' = k then some x else alookup k rest

/-- `line.split(",")[i]` parsed as a float; lines are assumed to be numeric
and long enough (a too-short line would raise `IndexError` in Python; the
claims never exercise that). -/
def fld (l : List ℚ) (i : Nat) : ℚ := l.getD i 0

/-- Python `int()` applied to a float: truncation toward zero. -/
def pyInt (q : ℚ) : Int := if 0 ≤ q then ⌊q⌋ else -⌊-q⌋

/-- Python list slicing `l[i:j]`, including negative-index wrapping and
clamping. -/
def pySlice {α : Type} (l : List α) (i j : Int) : List α :=
  let n : Int := l.length
  let i' := (if i < 0 then n + i else min i n).toNat
  let j' := (if j < 0 then n + j else min j n).toNat
  (l.take j').drop i'

/-- Python `min` on two floats (ties keep the first argument; agrees with
`min` on `ℚ`). -/
def pymin (a b : ℚ) : ℚ := if a ≤ b then a else b

/-- Python `max` on two floats (agrees with `max` on `ℚ`). -/
def pymax (a b : ℚ) : ℚ := if a ≤ b then b else a

/-- The digit-accumulation loop of Python `int()` over a string's
characters. -/
def parseDigits : List Char → Nat → Option Nat
  | [], acc => some acc
  | c :: cs, acc =>
      if c.isDigit then parseDigits cs (10 * acc + (c.toNat - 48)) else none

/-- Python `int()` on a string: an optional sign followed by at least one
digit; `none` where Python raises `ValueError`. -/
def pyParseInt (s : String) : Option Int :=
  match s.data with
  | [] => none
  | '-' :: [] => none
  | '-' :: c :: cs => (parseDigits (c :: cs) 0).map (fun n => -(n : Int))
  | '+' :: [] => none
  | '+' :: c :: cs => (parseDigits (c :: cs) 0).map (fun n => (n : Int))
  | cs => (parseDigits cs 0).map (fun n => (n : Int))

/-- `np.zeros n`. -/
def zeros (n : Nat) : Vec := List.replicate n 0

/-- `np.multiply(v, c)` with a scalar `c`. -/
def scaleVec (c : ℚ) (v : Vec) : Vec := v.map (fun x => c * x)

/-- `np.add` on two vectors (meaningful on equal dimensions, which is the
documented invariant for one stream). -/
def addVec (a b : Vec) : Vec := List.zipWith (fun x y => x + y) a b

/-- The `start_time, end_time` rebase every loader performs first:
`(0, end - start)` in relative mode, `(start, end)` otherwise. -/
def rebase (timestamps : String) (start end_ : ℚ) : ℚ × ℚ :=
  if timestamps = "relative" then (0, end_ - start) else (start, end_)

/-- The interval-overlap inclusion test appearing verbatim in the video-level
branches of `load_phonemes`, `load_embeddings`, `load_words` and `load_misc`:
include `(fs, fe)` against window `(start, end)` iff one of the four clauses
holds. -/
def overlapRule (fs fe start end_ : ℚ) : Bool :=
  decide ((fs ≤ start ∧ fe > end_) ∨ (fs ≥ start ∧ fe < end_) ∨
    (fs ≤ start ∧ start - fs < (fe - fs) / 2) ∨
    (fs ≥ start ∧ end_ - fs > (fe - fs) / 2))

/-- `Dataset.load_opensmile`.  File I/O is modelled by its parsed result:
`lastVals` is the file's last line, comma-split with the first field dropped,
parsed as floats (the file is only opened on the branch that uses it).
`none` models Python `None`. -/
def load_opensmile (lastVals : Vec) (start end_ : ℚ) (timestamps level : String) :
    Option FeatureStream :=
  let st := (rebase timestamps start end_).1
  let et := (rebase timestamps start end_).2
  if level = "s" ∨ start = 0 then some [⟨st, et, lastVals⟩] else none

/-- The generation loop of `load_covarep`: one interval of width `p` per
feature row, starting at `fs`. -/
def covarepGen (p : ℚ) (fs : ℚ) : List Vec → FeatureStream
  | [] => []
  | v :: rest => ⟨fs, fs + p, v⟩ :: covarepGen p (fs + p) rest

/-- `Dataset.load_covarep`; `rows` is the `features` matrix of the loaded
`.mat` file. -/
def load_covarep (rows : List Vec) (start end_ : ℚ) (timestamps level : String) :
    FeatureStream :=
  let p : ℚ := 1 / 100
  let st := (rebase timestamps start end_).1
  if level = "s" then covarepGen p st rows
  else
    let cnt : ℚ := rows.length
    covarepGen p st
      (pySlice rows (pyInt (pymin (start / p) cnt)) (pyInt (pymin (end_ / p) cnt)))

/-- `Dataset.load_phonemes`. -/
def load_phonemes (lines : List (List ℚ)) (start end_ : ℚ)
    (timestamps level : String) : FeatureStream :=
  let st := (rebase timestamps start end_).1
  if level = "s" then
    lines.map (fun l => ⟨fld l 1 + st, fld l 2 + st, l.drop 3⟩)
  else
    lines.filterMap (fun l =>
      let fs := fld l 1
      let fe := fld l 2
      if overlapRule fs fe start end_ then
        some ⟨fs - start + st, fe - start + st, l.drop 3⟩
      else none)

/-- `Dataset.load_embeddings`. -/
def load_embeddings (lines : List (List ℚ)) (start end_ : ℚ)
    (timestamps level : String) : FeatureStream :=
  let st := (rebase timestamps start end_).1
  if level = "s" then
    lines.map (fun l => ⟨fld l 0 + st, fld l 1 + st, l.drop 2⟩)
  else
    lines.filterMap (fun l =>
      let fs := fld l 1
      let fe := fld l 2
      if overlapRule fs fe start end_ then
        some ⟨fs - start + st, fe - start + st, l.drop 3⟩
      else none)

/-- `Dataset.load_words`. -/
def load_words (lines : List (List ℚ)) (start end_ : ℚ)
    (timestamps level : String) : FeatureStream :=
  let st := (rebase timestamps start end_).1
  if level = "s" then
    lines.map (fun l => ⟨fld l 0 + st, fld l 1 + st, l.drop 2⟩)
  else
    lines.filterMap (fun l =>
      let fs := fld l 1
      let fe := fld l 2
      if overlapRule fs fe start end_ then
        some ⟨fs - start + st, fe - start + st, l.drop 3⟩
      else none)

/-- `Dataset.load_openface` (skips the header line; frame width
`0.0333333`). -/
def load_openface (lines : List (List ℚ)) (start end_ : ℚ)
    (timestamps level : String) : FeatureStream :=
  let p : ℚ := 333333 / 10000000
  let st := (rebase timestamps start end_).1
  if level = "s" then
    (lines.drop 1).map (fun l => ⟨fld l 0 + st, fld l 0 + st + p, l.drop 1⟩)
  else
    (lines.drop 1).filterMap (fun l =>
      let fs := fld l 1
      if fs ≥ start ∧ fs < end_ then
        some ⟨fs - start + st, fs - start + st + p, l.drop 2⟩
      else none)

/-- `Dataset.load_old_facet` (skips the header line; frame width `0.03333`). -/
def load_old_facet (lines : List (List ℚ)) (start end_ : ℚ)
    (timestamps level : String) : FeatureStream :=
  let p : ℚ := 3333 / 100000
  let st := (rebase timestamps start end_).1
  if level = "s" then
    (lines.drop 1).map (fun l => ⟨fld l 0 + st, fld l 0 + st + p, l.drop 1⟩)
  else
    (lines.drop 1).filterMap (fun l =>
      let fs := fld l 0
      if fs ≥ start ∧ fs < end_ then
        some ⟨fs - start + st, fs - start + st + p, l.drop 1⟩
      else none)

/-- `Dataset.load_facet` (skips the header line).  The `try/except` float
parse of the video-level branch always succeeds on the numeric lines this
model works with. -/
def load_facet (lines : List (List ℚ)) (start end_ : ℚ)
    (timestamps level : String) : FeatureStream :=
  let p : ℚ := 3333 / 100000
  let st := (rebase timestamps start end_).1
  if level = "s" then
    (lines.drop 1).map (fun l => ⟨fld l 1 + st, fld l 1 + st + p, (l.drop 2).dropLast⟩)
  else
    (lines.drop 1).filterMap (fun l =>
      let fs := fld l 0
      if fs ≥ start ∧ fs < end_ then
        some ⟨fs - start + st, fs - start + st + p, (l.drop 1).dropLast⟩
      else none)

/-- `Dataset.load_facet1` (no header skip). -/
def load_facet1 (lines : List (List ℚ)) (start end_ : ℚ)
    (timestamps level : String) : FeatureStream :=
  let p : ℚ := 3333 / 100000
  let st := (rebase timestamps start end_).1
  if level = "s" then
    lines.map (fun l => ⟨fld l 1 + st, fld l 1 + st + p, (l.drop 2).dropLast⟩)
  else
    lines.filterMap (fun l =>
      let fs := fld l 1
      if fs ≥ start ∧ fs < end_ then
        some ⟨fs - start + st, fs - start + st + p, (l.drop 2).dropLast⟩
      else none)

/-- `Dataset.load_facet2` (identical body to `load_facet1` in the source). -/
def load_facet2 (lines : List (List ℚ)) (start end_ : ℚ)
    (timestamps level : String) : FeatureStream :=
  let p : ℚ := 3333 / 100000
  let st := (rebase timestamps start end_).1
  if level = "s" then
    lines.map (fun l => ⟨fld l 1 + st, fld l 1 + st + p, (l.drop 2).dropLast⟩)
  else
    lines.filterMap (fun l =>
      let fs := fld l 1
      if fs ≥ start ∧ fs < end_ then
        some ⟨fs - start + st, fs - start + st + p, (l.drop 2).dropLast⟩
      else none)

/-- `Dataset.load_misc`. -/
def load_misc (lines : List (List ℚ)) (start end_ : ℚ)
    (timestamps level : String) : FeatureStream :=
  let st := (rebase timestamps start end_).1
  if level = "s" then
    lines.map (fun l => ⟨fld l 0 + st, fld l 1 + st, l.drop 2⟩)
  else
    lines.filterMap (fun l =>
      let fs := fld l 0
      let fe := fld l 1
      if overlapRule fs fe start end_ then
        some ⟨fs - start + st, fe - start + st, l.drop 3⟩
      else none)

/-- One data row of the manifest CSV (the rows from index 2 on; `refs` are
the per-modality file references of columns 4+). -/
structure Row where
  video_id : String
  segment_id : String
  start : ℚ
  end_ : ℚ
  refs : List String
deriving DecidableEq, Repr

/-- The `segment_data` record `validate_file` stores per segment. -/
structure SegData where
  start : ℚ
  end_ : ℚ
  refs : List String
deriving DecidableEq, Repr

/-- `self.dataset_info`: `video_id → segment_id → segment_data`. -/
abbrev DInfo := List (String × List (String × SegData))

/-- `segment_id in self.dataset_info[video_id]` (with the video defaulting to
an empty segment dict, as `validate_file` creates it on demand). -/
def keyMem (info : DInfo) (v s : String) : Bool :=
  match alookup v info with
  | none => false
  | some segs => (alookup s segs).isSome

/-- Store `segment_data` under `(video_id, segment_id)` in `dataset_info`. -/
def addSeg : DInfo → Row → DInfo
  | [], r => [(r.video_id, [(r.segment_id, ⟨r.start, r.end_, r.refs⟩)])]
  | (v, segs) :: rest, r =>
      if v = r.video_id then
        (v, (r.segment_id, (⟨r.start, r.end_, r.refs⟩ : SegData)) :: segs) :: rest
      else (v, segs) :: addSeg rest r

/-- The per-row body of `validate_file`: raise
`NameError("Multiple instances of segment ...")` on a duplicate
`(video_id, segment_id)`, otherwise record the segment. -/
def insertRow (info : DInfo) (r : Row) : Except PyErr DInfo :=
  if keyMem info r.video_id r.segment_id then
    .error (.nameError r.video_id r.segment_id)
  else .ok (addSeg info r)

def validateAux (info : DInfo) : List Row → Except PyErr DInfo
  | [] => .ok info
  | r :: rs =>
      match insertRow info r with
      | .error err => .error err
      | .ok info' => validateAux info' rs

/-- `validate_file` over the manifest's data rows (the two header rows are
modelled separately as the modality declarations). -/
def validate_file (rows : List Row) : Except PyErr DInfo := validateAux [] rows

/-- A format adapter: `load(filepath, start, end, timestamps, level)`.  The
result is `Option` because `load_opensmile` can return `None`. -/
abbrev Loader := String → ℚ → ℚ → String → String → Option FeatureStream

/-- `self.feature_dict`: `modality key → video → segment → loader result`. -/
abbrev FeatDict := List (String × ModalityDict)

/-- One modality declaration from the manifest's two header rows. -/
structure MInfo where
  type : String
  level : String
deriving DecidableEq, Repr

/-- `load_features`: for every modality (dispatching
`Dataset.__dict__["load_" + api]` through a `registry`), every video and
every segment, invoke the loader on the segment's file reference and
window. -/
def load_features (info : DInfo) (mods : List (String × MInfo))
    (registry : String → Loader) (timestamps : String) : FeatDict :=
  mods.enum.map (fun mp =>
    (mp.2.1, info.map (fun vp =>
      (vp.1, vp.2.map (fun sp =>
        (sp.1, registry mp.2.2.type (sp.2.refs.getD mp.1 "") sp.2.start sp.2.end_
          timestamps mp.2.2.level))))))

/-- `Dataset.controller`: validate the manifest csv, then (and only then)
load all features. -/
def controller (rows : List Row) (mods : List (String × MInfo))
    (registry : String → Loader) (timestamps : String) : Except PyErr FeatDict :=
  match validate_file rows with
  | .error err => .error err
  | .ok info => .ok (load_features info mods registry timestamps)

/-- `modality_feat_dict[video_id][segment_id]`: `none` when either key is
missing (Python `KeyError`); otherwise the stored loader result. -/
def lookupSeg (md : ModalityDict) (vid sid : String) : Option (Option FeatureStream) :=
  match alookup vid md with
  | none => none
  | some segs => alookup sid segs

/-- The segment-alignment loop of `get_alignments` for one video: iterating a
stored `None` raises `TypeError`. -/
def getSegAlign : List (String × Option FeatureStream) →
    Except PyErr (List (String × Grid))
  | [] => .ok []
  | (_sid, none) :: _ => .error .typeError
  | (sid, some feats) :: rest =>
      match getSegAlign rest with
      | .error err => .error err
      | .ok r => .ok ((sid, feats.map (fun f => (f.s, f.e))) :: r)

/-- `Dataset.get_alignments`: project the pivot modality's streams to their
`(start, end)` pairs. -/
def get_alignments : ModalityDict → Except PyErr Alignments
  | [] => .ok []
  | (vid, segs) :: rest =>
      match getSegAlign segs with
      | .error err => .error err
      | .ok sa =>
          match get_alignments rest with
          | .error err => .error err
          | .ok r => .ok ((vid, sa) :: r)

/-- The inner resampling loop of `align_modality`, accumulating onto `acc`
(which starts as `np.zeros`): every feature tuple overlapping
`[ts, te)` contributes its value scaled by `overlap / (te - ts)`. -/
def resampleAux (ts te : ℚ) (acc : Vec) : FeatureStream → Vec
  | [] => acc
  | f :: rest =>
      if f.s < te ∧ f.e ≥ ts then
        resampleAux ts te
          (addVec acc (scaleVec ((pymin te f.e - pymax ts f.s) / (te - ts)) f.v)) rest
      else resampleAux ts te acc rest

/-- Overlap-weighted resampling of one grid interval `(ts, te)` from stream
`feats`, starting from `np.zeros dim`. -/
def resample (ts te : ℚ) (feats : FeatureStream) (dim : Nat) : Vec :=
  resampleAux ts te (zeros dim) feats

/-- Processing of one grid interval inside `align_modality`: the stream
lookup (a missing key is a fatal `KeyError`), the `try/except` probe
`len(feats[0][2])` whose failure (stored `None` or empty list) triggers the
once-per-(video, segment) diagnostic and the fallback to segment
`str(int(segment_id) - 1)`, then the resampling loop.  Returns the aligned
tuple, the updated `warning_hist` and the diagnostics printed. -/
def alignInterval (md : ModalityDict) (vid sid : String) (hist : Hist)
    (ts te : ℚ) : Except PyErr (FeatInterval × Hist × Hist) :=
  match lookupSeg md vid sid with
  | none => .error (.keyError vid sid)
  | some (some (f :: fs)) =>
      .ok (⟨ts, te, resample ts te (f :: fs) f.v.length⟩, hist, [])
  | some _feats0 =>
      let hist' := if (vid, sid) ∈ hist then hist else (vid, sid) :: hist
      let diags : Hist := if (vid, sid) ∈ hist then [] else [(vid, sid)]
      match pyParseInt sid with
      | none => .error (.valueError sid)
      | some n =>
          match lookupSeg md vid (toString (n - 1)) with
          | none => .error (.keyError vid (toString (n - 1)))
          | some none => .error .typeError
          | some (some []) => .error .indexError
          | some (some (f :: fs)) =>
              .ok (⟨ts, te, resample ts te (f :: fs) f.v.length⟩, hist', diags)

/-- The grid-interval loop of `align_modality` for one segment, threading
`warning_hist` and collecting output tuples in grid order. -/
def alignSegment (md : ModalityDict) (vid sid : String) :
    Hist → Grid → Except PyErr (FeatureStream × Hist × Hist)
  | hist, [] => .ok ([], hist, [])
  | hist, (ts, te) :: rest =>
      match alignInterval md vid sid hist ts te with
      | .error err => .error err
      | .ok (fi, hist', d1) =>
          match alignSegment md vid sid hist' rest with
          | .error err => .error err
          | .ok (out, hist'', d2) => .ok (fi :: out, hist'', d1 ++ d2)

/-- The segment loop of `align_modality` for one video. -/
def alignSegs (md : ModalityDict) (vid : String) :
    Hist → List (String × Grid) →
    Except PyErr (List (String × FeatureStream) × Hist × Hist)
  | hist, [] => .ok ([], hist, [])
  | hist, (sid, grid) :: rest =>
      match alignSegment md vid sid hist grid with
      | .error err => .error err
      | .ok (out, hist', d1) =>
          match alignSegs md vid hist' rest with
          | .error err => .error err
          | .ok (outs, hist'', d2) => .ok ((sid, out) :: outs, hist'', d1 ++ d2)

/-- The video loop of `align_modality`. -/
def alignVids (md : ModalityDict) :
    Hist → Alignments → Except PyErr (AlignedOut × Hist × Hist)
  | hist, [] => .ok ([], hist, [])
  | hist, (vid, segs) :: rest =>
      match alignSegs md vid hist segs with
      | .error err => .error err
      | .ok (vouts, hist', d1) =>
          match alignVids md hist' rest with
          | .error err => .error err
          | .ok (outs, hist'', d2) => .ok ((vid, vouts) :: outs, hist'', d1 ++ d2)

/-- `Dataset.align_modality`: a fresh `warning_hist`, then align every
(video, segment) of `alignments` for this modality's dict `md`.  Also
returns the diagnostics printed, in order. -/
def align_modality (md : ModalityDict) (alignments : Alignments) :
    Except PyErr (AlignedOut × Hist) :=
  match alignVids md [] alignments with
  | .error err => .error err
  | .ok (out, _, diags) => .ok (out, diags)

/-- The modality loop of `Dataset.align`, skipping the pivot. -/
def alignAll (pivot : String) (al : Alignments) :
    FeatDict → Except PyErr (List (String × AlignedOut × Hist))
  | [] => .ok []
  | (m, md) :: rest =>
      if m = pivot then alignAll pivot al rest
      else
        match align_modality md al with
        | .error err => .error err
        | .ok (out, d) =>
            match alignAll pivot al rest with
            | .error err => .error err
            | .ok r => .ok ((m, out, d) :: r)

/-- `Dataset.align`: build the alignment grid from the pivot modality, then
align every other modality onto it. -/
def align (fd : FeatDict) (pivot : String) :
    Except PyErr (List (String × AlignedOut × Hist)) :=
  match alookup pivot fd with
  | none => .error (.keyError pivot "")
  | some pd =>
      match get_alignments pd with
      | .error err => .error err
      | .ok al => alignAll pivot al fd

/-- `Except` success test. -/
def exOk {ε α : Type} : Except ε α → Bool
  | .ok _ => true
  | .error _ => false

/-- Shift one feature tuple's boundaries down by `s` (value unchanged). -/
def shiftInterval (s : ℚ) (f : FeatInterval) : FeatInterval := ⟨f.s - s, f.e - s, f.v⟩

/-- Shift a whole stream's boundaries down by `s`. -/
def shiftStream (s : ℚ) (l : FeatureStream) : FeatureStream := l.map (shiftInterval s)

/-- Shift every stored stream of a modality dict down by `s`. -/
def shiftDict (s : ℚ) (md : ModalityDict) : ModalityDict :=
  md.map (fun vp => (vp.1, vp.2.map (fun sp => (sp.1, sp.2.map (shiftStream s)))))

/-- Shift every grid boundary of an alignment table down by `s`. -/
def shiftAl (s : ℚ) (al : Alignments) : Alignments :=
  al.map (fun vp => (vp.1, vp.2.map (fun sp =>
    (sp.1, sp.2.map (fun iv => (iv.1 - s, iv.2 - s))))))

/-- Shift every aligned stream of an aligned output down by `s`. -/
def shiftOut (s : ℚ) (out : AlignedOut) : AlignedOut :=
  out.map (fun vp => (vp.1, vp.2.map (fun sp => (sp.1, shiftStream s sp.2))))

/-- The `(start, end)` boundary projection of an aligned output. -/
def projOut (out : AlignedOut) : Alignments :=
  out.map (fun vp => (vp.1, vp.2.map (fun sp =>
    (sp.1, sp.2.map (fun f => (f.s, f.e))))))

/-- The sum of the overlap weights `resample` applies on `(ts, te)`: one
weight `overlap / (te - ts)` per source interval overlapping `[ts, te)`. -/
def weightSum (ts te : ℚ) (feats : FeatureStream) : ℚ :=
  ((feats.filter (fun f => decide (f.s < te ∧ f.e ≥ ts))).map
    (fun f => (pymin te f.e - pymax ts f.s) / (te - ts))).sum

/-- The total overlap length the stream `feats` has with `[ts, te)`. -/
def coveredLen (ts te : ℚ) (feats : FeatureStream) : ℚ :=
  ((feats.filter (fun f => decide (f.s < te ∧ f.e ≥ ts))).map
    (fun f => pymin te f.e - pymax ts f.s)).sum

/-- Stated from the spec's words (§8) for comparison with `resample`: the
time-weighted mean of a family of intervals' values, each value weighted by
its interval's length, normalized by the total length. -/
def specTimeWeightedMean (feats : FeatureStream) (dim : Nat) : Vec :=
  scaleVec (1 / ((feats.map (fun f => f.e - f.s)).sum))
    (feats.foldr (fun f acc => addVec (scaleVec (f.e - f.s) f.v) acc) (zeros dim))

/-- Concrete target stream of the spec's §8 scenario. -/
def mdC3 : ModalityDict :=
  [("v", [("1", some [⟨0, 1/2, [2]⟩, ⟨1/2, 3/2, [4]⟩, ⟨3/2, 2, [6]⟩])])]

/-- Concrete pivot grid of the spec's §8 scenario. -/
def alC3 : Alignments := [("v", [("1", [(0, 1), (1, 2)])])]

/-- A feature dictionary whose pivot `modality_0` has no entry for segment
`"2"` of video `"v"` even though `modality_1` has one. -/
def fdSmall : FeatDict :=
  [("modality_0", [("v", [("1", some [⟨0, 1, [1]⟩])])]),
   ("modality_1", [("v", [("1", some [⟨0, 1, [2]⟩]), ("2", some [⟨1, 2, [3]⟩])])])]

/-- A feature dictionary whose non-pivot `modality_1` lacks segment `"2"` of
video `"v"` that the pivot `modality_0` has. -/
def fdMissing : FeatDict :=
  [("modality_0", [("v", [("1", some [⟨0, 1, [1]⟩]), ("2", some [⟨1, 2, [1]⟩])])]),
   ("modality_1", [("v", [("1", some [⟨0, 1, [2]⟩])])])]

/-- A modality dict where segment `"3"` of video `"v"` is stored empty and
segment `"2"` is non-empty: the fallback input of the spec's §8 scenario. -/
def mdFall : ModalityDict :=
  [("v", [("2", some [⟨0, 1, [4]⟩, ⟨1, 2, [8]⟩]), ("3", some [])])]

/-- A modality dict where segment `"3"` of video `"v"` is stored empty and
segment `"2"` is absent entirely. -/
def mdFallGone : ModalityDict := [("v", [("3", some [])])]

/-- Two manifest rows sharing `(video_id, segment_id) = ("v1", "1")`. -/
def rowsDup : List Row :=
  [⟨"v1", "1", 0, 1, ["a"]⟩, ⟨"v1", "1", 1, 2, ["b"]⟩]

theorem rebase_absolute (start end_ : ℚ) :
    rebase "absolute" start end_ = (start, end_) := rfl

theorem rebase_relative (start end_ : ℚ) :
    rebase "relative" start end_ = (0, end_ - start) := rfl

/-- C3: on the spec's concrete scenario — pivot grid `[(0,1),(1,2)]`, target
stream `[(0,0.5,[2]), (0.5,1.5,[4]), (1.5,2,[6])]` — the aligner outputs
value `3` on grid interval `(0,1)` and value `5` on `(1,2)`, each the sum of
overlapping values weighted by `overlap / span`. -/
theorem c3_concrete_scenario :
    align_modality mdC3 alC3 =
      .ok ([("v", [("1", [⟨0, 1, [3]⟩, ⟨1, 2, [5]⟩])])], []) := by
  norm_num [align_modality, alignVids, alignSegs, alignSegment, alignInterval,
    lookupSeg, alookup, resample, resampleAux, addVec, scaleVec, zeros,
    pymin, pymax, mdC3, alC3]

/-- C9: alignment is a deterministic function of the feature dictionary and
the pivot choice — two invocations of `align` on identical inputs produce
identical outputs. -/
theorem c9_determinism (fd : FeatDict) (pivot : String)
    (r1 r2 : Except PyErr (List (String × AlignedOut × Hist)))
    (h1 : align fd pivot = r1) (h2 : align fd pivot = r2) : r1 = r2 :=
  h1 ▸ h2 ▸ rfl

theorem c9_determinism_witness :
    (Except.ok [("modality_1", [("v", [("1", [⟨0, 1, [2]⟩])])], ([] : Hist))] :
        Except PyErr (List (String × AlignedOut × Hist))) =
      align fdSmall "modality_0" :=
  c9_determinism fdSmall "modality_0" _ _
    (by
      norm_num [align, alignAll, get_alignments, getSegAlign, align_modality,
        alignVids, alignSegs, alignSegment, alignInterval,
        lookupSeg, alookup, resample, resampleAux, addVec, scaleVec, zeros,
        pymin, pymax, fdSmall]
      decide)
    rfl

/-- C10: `load_opensmile` returns Python `None` exactly when `level = "v"`
and the segment start is nonzero; in every other case (for the two declared
levels) it returns a singleton stream spanning the whole segment window in
the run's timestamp mode, carrying the file's parsed last line as value. -/
theorem c10_opensmile_none_or_singleton (vals : Vec) (start end_ : ℚ)
    (ts level : String) :
    (level = "v" ∧ start ≠ 0 → load_opensmile vals start end_ ts level = none) ∧
    ((level = "s" ∨ level = "v") → ¬(level = "v" ∧ start ≠ 0) →
      load_opensmile vals start end_ ts level =
        some [⟨(rebase ts start end_).1, (rebase ts start end_).2, vals⟩]) := by
  constructor
  · rintro ⟨hv, hs⟩
    subst hv
    simp [load_opensmile, hs]
  · rintro (hs | hv) hne
    · subst hs
      simp [load_opensmile]
    · subst hv
      have hz : start = 0 := by
        by_contra hz
        exact hne ⟨rfl, hz⟩
      simp [load_opensmile, hz]

theorem c10_opensmile_witness :
    load_opensmile [1] 5 7 "absolute" "v" = none ∧
    load_opensmile [1] 5 7 "absolute" "s" = some [⟨5, 7, [1]⟩] := by
  constructor
  · exact (c10_opensmile_none_or_singleton [1] 5 7 "absolute" "v").1
      ⟨rfl, by norm_num⟩
  · have h := (c10_opensmile_none_or_singleton [1] 5 7 "absolute" "s").2
      (Or.inl rfl) (by simp)
    simpa [rebase] using h

/-- C2 counterexample: `load_openface` is an adapter operating at video
level, yet it does not implement the four-clause inclusion rule.  The frame
`(fs, fs + 0.0333333)` with `fs = 1 - 0.0333333/4` satisfies the four-clause
rule against window `(1, 2)` (third clause: `start - fs = p/4 < p/2`), but
`load_openface` excludes it because `fs < start`. -/
theorem c2_counterexample :
    overlapRule (39666667 / 40000000) (39666667 / 40000000 + 333333 / 10000000)
        1 2 = true ∧
    load_openface [[0, 0, 0], [0, 39666667 / 40000000, 5]] 1 2 "absolute" "v"
        = [] := by
  constructor
  · norm_num [overlapRule]
  · norm_num [load_openface, fld, rebase]
    decide

/-- C2 (amended): the four-clause rule characterizes inclusion for the
`load_phonemes` adapter at video level (likewise `load_embeddings`,
`load_words`, `load_misc`, which share the test verbatim), with an exact
50% straddle excluded by the strict inequalities; `load_openface` instead
includes a frame iff its start lies in `[start, end)`. -/
theorem c2_amended_overlap_rule :
    (∀ (l : List ℚ) (start end_ : ℚ),
      load_phonemes [l] start end_ "absolute" "v" ≠ [] ↔
        overlapRule (fld l 1) (fld l 2) start end_ = true) ∧
    (∀ (hdr l : List ℚ) (start end_ : ℚ),
      load_openface [hdr, l] start end_ "absolute" "v" ≠ [] ↔
        (fld l 1 ≥ start ∧ fld l 1 < end_)) ∧
    (∀ (fs d start end_ : ℚ), 0 < d → fs + d ≤ end_ → start - fs = d / 2 →
      overlapRule fs (fs + d) start end_ = false) := by
  refine ⟨?_, ?_, ?_⟩
  · intro l start end_
    by_cases h : overlapRule (fld l 1) (fld l 2) start end_ = true
    · simp [load_phonemes, h]
    · simp [load_phonemes, h]
  · intro hdr l start end_
    by_cases h : fld l 1 ≥ start ∧ fld l 1 < end_
    · simp [load_openface, h]
    · simp [load_openface, h]
  · intro fs d start end_ hd hfe hhalf
    have hfs : fs < start := by
      have : 0 < d / 2 := by positivity
      linarith
    simp only [overlapRule, decide_eq_false_iff_not]
    rintro (⟨h1, h2⟩ | ⟨h1, h2⟩ | ⟨h1, h2⟩ | ⟨h1, h2⟩)
    · linarith
    · linarith
    · have : fs + d - fs = d := by ring
      rw [this] at h2
      linarith
    · linarith

theorem c2_amended_witness :
    overlapRule 0 (0 + 2) 1 3 = false :=
  c2_amended_overlap_rule.2.2 0 2 1 3 (by norm_num) (by norm_num) (by norm_num)


theorem alignInterval_fb_new (md : ModalityDict) (vid sid : String)
    (hist : Hist) (ts te : ℚ) (s0 : Option FeatureStream) (n : Int)
    (f : FeatInterval) (fs : FeatureStream)
    (h0 : lookupSeg md vid sid = some s0) (hs0 : s0 = none ∨ s0 = some [])
    (hn : pyParseInt sid = some n)
    (hp : lookupSeg md vid (toString (n - 1)) = some (some (f :: fs)))
    (hmem : (vid, sid) ∉ hist) :
    alignInterval md vid sid hist ts te =
      .ok (⟨ts, te, resample ts te (f :: fs) f.v.length⟩,
           (vid, sid) :: hist, [(vid, sid)]) := by
  rcases hs0 with h | h <;> subst h <;>
    simp [alignInterval, h0, hn, hp, hmem]

theorem alignInterval_fb_mem (md : ModalityDict) (vid sid : String)
    (hist : Hist) (ts te : ℚ) (s0 : Option FeatureStream) (n : Int)
    (f : FeatInterval) (fs : FeatureStream)
    (h0 : lookupSeg md vid sid = some s0) (hs0 : s0 = none ∨ s0 = some [])
    (hn : pyParseInt sid = some n)
    (hp : lookupSeg md vid (toString (n - 1)) = some (some (f :: fs)))
    (hmem : (vid, sid) ∈ hist) :
    alignInterval md vid sid hist ts te =
      .ok (⟨ts, te, resample ts te (f :: fs) f.v.length⟩, hist, []) := by
  rcases hs0 with h | h <;> subst h <;>
    simp [alignInterval, h0, hn, hp, hmem]


theorem alignSegment_fb_mem (md : ModalityDict) (vid sid : String)
    (hist : Hist) (s0 : Option FeatureStream) (n : Int)
    (f : FeatInterval) (fs : FeatureStream)
    (h0 : lookupSeg md vid sid = some s0) (hs0 : s0 = none ∨ s0 = some [])
    (hn : pyParseInt sid = some n)
    (hp : lookupSeg md vid (toString (n - 1)) = some (some (f :: fs)))
    (hmem : (vid, sid) ∈ hist) (grid : Grid) :
    alignSegment md vid sid hist grid =
      .ok (grid.map (fun iv =>
            ⟨iv.1, iv.2, resample iv.1 iv.2 (f :: fs) f.v.length⟩),
           hist, []) := by
  induction grid with
  | nil => simp [alignSegment]
  | cons iv rest ih =>
      obtain ⟨ts, te⟩ := iv
      simp [alignSegment, alignInterval_fb_mem md vid sid hist ts te s0 n f fs
        h0 hs0 hn hp hmem, ih]

/-- C1: for a (video, segment) whose stored stream is empty or absent
(`None`), every grid interval is served by substituting the stream of the
segment whose ID is the integer decrement of the current one (same video and
modality), the output equals resampling that predecessor stream onto the
grid, and exactly one diagnostic is recorded for the pair no matter how many
grid intervals there are; if the predecessor is absent from the dict, the
lookup fails fatally with a `KeyError` and there is no deeper fallback. -/
theorem c1_fallback_policy :
    (∀ (md : ModalityDict) (vid sid : String) (hist : Hist) (grid : Grid)
        (s0 : Option FeatureStream) (n : Int) (f : FeatInterval)
        (fs : FeatureStream),
      lookupSeg md vid sid = some s0 → (s0 = none ∨ s0 = some []) →
      pyParseInt sid = some n →
      lookupSeg md vid (toString (n - 1)) = some (some (f :: fs)) →
      (vid, sid) ∉ hist →
      alignSegment md vid sid hist grid =
        .ok (grid.map (fun iv =>
              ⟨iv.1, iv.2, resample iv.1 iv.2 (f :: fs) f.v.length⟩),
             if grid = [] then hist else (vid, sid) :: hist,
             if grid = [] then [] else [(vid, sid)])) ∧
    (∀ (md : ModalityDict) (vid sid : String) (hist : Hist) (ts te : ℚ)
        (rest : Grid) (s0 : Option FeatureStream) (n : Int),
      lookupSeg md vid sid = some s0 → (s0 = none ∨ s0 = some []) →
      pyParseInt sid = some n →
      lookupSeg md vid (toString (n - 1)) = none →
      alignSegment md vid sid hist ((ts, te) :: rest) =
        .error (.keyError vid (toString (n - 1)))) := by
  constructor
  · intro md vid sid hist grid s0 n f fs h0 hs0 hn hp hmem
    cases grid with
    | nil => simp [alignSegment]
    | cons iv rest =>
        obtain ⟨ts, te⟩ := iv
        simp [alignSegment, alignInterval_fb_new md vid sid hist ts te s0 n f fs
          h0 hs0 hn hp hmem,
          alignSegment_fb_mem md vid sid ((vid, sid) :: hist) s0 n f fs
          h0 hs0 hn hp (List.mem_cons_self _ _) rest]
  · intro md vid sid hist ts te rest s0 n h0 hs0 hn hp
    rcases hs0 with h | h <;> subst h <;>
      simp [alignSegment, alignInterval, h0, hn, hp]

theorem c1_fallback_witness :
    alignSegment mdFall "v" "3" [] [(2, 3), (3, 4)] =
      .ok ([⟨2, 3, [0]⟩, ⟨3, 4, [0]⟩], [("v", "3")], [("v", "3")]) ∧
    alignSegment mdFallGone "v" "3" [] [(2, 3)] =
      .error (.keyError "v" "2") := by
  constructor
  · have h := c1_fallback_policy.1 mdFall "v" "3" [] [(2, 3), (3, 4)]
      (some []) 3 ⟨0, 1, [4]⟩ [⟨1, 2, [8]⟩]
      (by simp [lookupSeg, alookup, mdFall]) (Or.inr rfl) (by decide)
      (by simp [lookupSeg, alookup, mdFall]; decide) (by decide)
    rw [h]
    norm_num [resample, resampleAux, addVec, scaleVec, zeros, pymin, pymax]
    decide
  · have h := c1_fallback_policy.2 mdFallGone "v" "3" [] 2 3 []
      (some []) 3
      (by simp [lookupSeg, alookup, mdFallGone]) (Or.inr rfl) (by decide)
      (by simp [lookupSeg, alookup, mdFallGone]; decide)
    rw [h]
    decide


theorem alignInterval_ok_bounds {md : ModalityDict} {vid sid : String}
    {hist : Hist} {ts te : ℚ} {fi : FeatInterval} {h2 d : Hist}
    (h : alignInterval md vid sid hist ts te = .ok (fi, h2, d)) :
    fi.s = ts ∧ fi.e = te := by
  unfold alignInterval at h
  repeat' split at h
  all_goals simp at h
  all_goals obtain ⟨h1, -, -⟩ := h
  all_goals rw [← h1]
  all_goals simp

theorem alignSegment_ok_proj {md : ModalityDict} {vid sid : String} :
    ∀ {grid : Grid} {hist : Hist} {out : FeatureStream} {h2 d : Hist},
    alignSegment md vid sid hist grid = .ok (out, h2, d) →
    out.map (fun f => (f.s, f.e)) = grid := by
  intro grid
  induction grid with
  | nil =>
      intro hist out h2 d h
      simp [alignSegment] at h
      simp [h.1]
  | cons iv rest ih =>
      obtain ⟨ts, te⟩ := iv
      intro hist out h2 d h
      rw [alignSegment] at h
      cases hai : alignInterval md vid sid hist ts te with
      | error e => rw [hai] at h; exact absurd h (by simp)
      | ok r =>
          obtain ⟨fi, h1, d1⟩ := r
          rw [hai] at h
          dsimp only at h
          cases hrest : alignSegment md vid sid h1 rest with
          | error e => rw [hrest] at h; exact absurd h (by simp)
          | ok r2 =>
              obtain ⟨out2, hh, d2⟩ := r2
              rw [hrest] at h
              dsimp only at h
              simp at h
              obtain ⟨ho, _, _⟩ := h
              subst ho
              obtain ⟨hs, he⟩ := alignInterval_ok_bounds hai
              simp [hs, he, ih hrest]

theorem alignSegs_ok_proj {md : ModalityDict} {vid : String} :
    ∀ {segs : List (String × Grid)} {hist : Hist}
      {outs : List (String × FeatureStream)} {h2 d : Hist},
    alignSegs md vid hist segs = .ok (outs, h2, d) →
    outs.map (fun sp => (sp.1, sp.2.map (fun f => (f.s, f.e)))) = segs := by
  intro segs
  induction segs with
  | nil =>
      intro hist outs h2 d h
      simp [alignSegs] at h
      simp [h.1]
  | cons p rest ih =>
      obtain ⟨sid, grid⟩ := p
      intro hist outs h2 d h
      rw [alignSegs] at h
      cases hseg : alignSegment md vid sid hist grid with
      | error e => rw [hseg] at h; exact absurd h (by simp)
      | ok r =>
          obtain ⟨out, h1, d1⟩ := r
          rw [hseg] at h
          dsimp only at h
          cases hrest : alignSegs md vid h1 rest with
          | error e => rw [hrest] at h; exact absurd h (by simp)
          | ok r2 =>
              obtain ⟨outs2, hh, d2⟩ := r2
              rw [hrest] at h
              dsimp only at h
              simp at h
              obtain ⟨ho, _, _⟩ := h
              subst ho
              simp [alignSegment_ok_proj hseg, ih hrest]

theorem alignVids_ok_proj {md : ModalityDict} :
    ∀ {al : Alignments} {hist : Hist} {out : AlignedOut} {h2 d : Hist},
    alignVids md hist al = .ok (out, h2, d) → projOut out = al := by
  intro al
  induction al with
  | nil =>
      intro hist out h2 d h
      simp [alignVids] at h
      simp [projOut, h.1]
  | cons p rest ih =>
      obtain ⟨vid, segs⟩ := p
      intro hist out h2 d h
      rw [alignVids] at h
      cases hsegs : alignSegs md vid hist segs with
      | error e => rw [hsegs] at h; exact absurd h (by simp)
      | ok r =>
          obtain ⟨vouts, h1, d1⟩ := r
          rw [hsegs] at h
          dsimp only at h
          cases hrest : alignVids md h1 rest with
          | error e => rw [hrest] at h; exact absurd h (by simp)
          | ok r2 =>
              obtain ⟨outs2, hh, d2⟩ := r2
              rw [hrest] at h
              dsimp only at h
              simp at h
              obtain ⟨ho, _, _⟩ := h
              subst ho
              have hr := ih hrest
              simp [projOut] at hr
              simp [projOut, alignSegs_ok_proj hsegs, hr]

theorem align_modality_ok_proj {md : ModalityDict} {al : Alignments}
    {out : AlignedOut} {d : Hist}
    (h : align_modality md al = .ok (out, d)) : projOut out = al := by
  rw [align_modality] at h
  cases hv : alignVids md [] al with
  | error e => rw [hv] at h; exact absurd h (by simp)
  | ok r =>
      obtain ⟨o, h1, diags⟩ := r
      rw [hv] at h
      dsimp only at h
      simp at h
      obtain ⟨ho, -⟩ := h
      subst ho
      exact alignVids_ok_proj hv

theorem alignAll_ok_mem {pivot : String} {al : Alignments} :
    ∀ {fd : FeatDict} {res : List (String × AlignedOut × Hist)},
    alignAll pivot al fd = .ok res →
    ∀ {m : String} {out : AlignedOut} {d : Hist}, (m, out, d) ∈ res →
    ∃ md, align_modality md al = .ok (out, d) := by
  intro fd
  induction fd with
  | nil =>
      intro res h m out d hm
      simp [alignAll] at h
      subst h
      exact absurd hm (by simp)
  | cons p rest ih =>
      obtain ⟨m0, md0⟩ := p
      intro res h m out d hm
      rw [alignAll] at h
      by_cases hp : m0 = pivot
      · rw [if_pos hp] at h
        exact ih h hm
      · rw [if_neg hp] at h
        cases ham : align_modality md0 al with
        | error e => rw [ham] at h; exact absurd h (by simp)
        | ok r =>
            obtain ⟨o0, d0⟩ := r
            rw [ham] at h
            dsimp only at h
            cases hrest : alignAll pivot al rest with
            | error e => rw [hrest] at h; exact absurd h (by simp)
            | ok r2 =>
                rw [hrest] at h
                dsimp only at h
                simp at h
                rw [← h] at hm
                rcases List.mem_cons.1 hm with he | ht
                · simp only [Prod.mk.injEq] at he
                  obtain ⟨-, ho, hd⟩ := he
                  subst ho
                  subst hd
                  exact ⟨md0, ham⟩
                · exact ih hrest ht

/-- C4: every aligned stream in `align`'s output projects, boundary for
boundary and in order, onto the full alignment grid: one entry per grid
interval, same `(start, end)` pairs, for every non-pivot modality — hence
equal-length, equal-boundary streams across modalities. -/
theorem c4_grid_shape (fd : FeatDict) (pivot : String) (pd : ModalityDict)
    (al : Alignments) (res : List (String × AlignedOut × Hist))
    (m : String) (out : AlignedOut) (d : Hist)
    (hpd : alookup pivot fd = some pd)
    (hal : get_alignments pd = .ok al)
    (hrun : align fd pivot = .ok res)
    (hm : (m, out, d) ∈ res) :
    projOut out = al := by
  rw [align, hpd] at hrun
  dsimp only at hrun
  rw [hal] at hrun
  dsimp only at hrun
  obtain ⟨md, hmod⟩ := alignAll_ok_mem hrun hm
  exact align_modality_ok_proj hmod

theorem c4_witness :
    projOut [("v", [("1", [⟨0, 1, [2]⟩])])] = [("v", [("1", [(0, 1)])])] :=
  c4_grid_shape fdSmall "modality_0" [("v", [("1", some [⟨0, 1, [1]⟩])])]
    [("v", [("1", [(0, 1)])])]
    [("modality_1", [("v", [("1", [⟨0, 1, [2]⟩])])], [])]
    "modality_1" [("v", [("1", [⟨0, 1, [2]⟩])])] []
    (by simp [alookup, fdSmall])
    (by simp [get_alignments, getSegAlign, fdSmall])
    (by
      norm_num [align, alignAll, get_alignments, getSegAlign, align_modality,
        alignVids, alignSegs, alignSegment, alignInterval, lookupSeg, alookup,
        resample, resampleAux, addVec, scaleVec, zeros, pymin, pymax, fdSmall]
      decide)
    (by simp)

theorem alignInterval_ok_lookup {md : ModalityDict} {vid sid : String}
    {hist : Hist} {ts te : ℚ} {r : FeatInterval × Hist × Hist}
    (h : alignInterval md vid sid hist ts te = .ok r) :
    (lookupSeg md vid sid).isSome := by
  unfold alignInterval at h
  cases hl : lookupSeg md vid sid with
  | none => rw [hl] at h; simp at h
  | some s0 => simp

theorem alignSegment_cons_ok_lookup {md : ModalityDict} {vid sid : String}
    {hist : Hist} {ts te : ℚ} {rest : Grid} {r : FeatureStream × Hist × Hist}
    (h : alignSegment md vid sid hist ((ts, te) :: rest) = .ok r) :
    (lookupSeg md vid sid).isSome := by
  rw [alignSegment] at h
  cases hai : alignInterval md vid sid hist ts te with
  | error e => rw [hai] at h; simp at h
  | ok r1 => exact alignInterval_ok_lookup hai

theorem alignSegs_ok_all {md : ModalityDict} {vid : String} :
    ∀ {segs : List (String × Grid)} {hist : Hist}
      {r : List (String × FeatureStream) × Hist × Hist},
    alignSegs md vid hist segs = .ok r →
    ∀ {sid : String} {grid : Grid}, (sid, grid) ∈ segs →
    ∃ hist' r', alignSegment md vid sid hist' grid = .ok r' := by
  intro segs
  induction segs with
  | nil =>
      intro hist r h sid grid hm
      exact absurd hm (by simp)
  | cons p rest ih =>
      obtain ⟨sid0, grid0⟩ := p
      intro hist r h sid grid hm
      rw [alignSegs] at h
      cases hseg : alignSegment md vid sid0 hist grid0 with
      | error e => rw [hseg] at h; exact absurd h (by simp)
      | ok r1 =>
          obtain ⟨out, h1, d1⟩ := r1
          rw [hseg] at h
          dsimp only at h
          cases hrest : alignSegs md vid h1 rest with
          | error e => rw [hrest] at h; exact absurd h (by simp)
          | ok r2 =>
              rcases List.mem_cons.1 hm with he | ht
              · simp only [Prod.mk.injEq] at he
                obtain ⟨hs, hg⟩ := he
                subst hs
                subst hg
                exact ⟨hist, _, hseg⟩
              · exact ih hrest ht

theorem alignVids_ok_all {md : ModalityDict} :
    ∀ {al : Alignments} {hist : Hist} {r : AlignedOut × Hist × Hist},
    alignVids md hist al = .ok r →
    ∀ {vid : String} {segs : List (String × Grid)}, (vid, segs) ∈ al →
    ∃ hist' r', alignSegs md vid hist' segs = .ok r' := by
  intro al
  induction al with
  | nil =>
      intro hist r h vid segs hm
      exact absurd hm (by simp)
  | cons p rest ih =>
      obtain ⟨vid0, segs0⟩ := p
      intro hist r h vid segs hm
      rw [alignVids] at h
      cases hsegs : alignSegs md vid0 hist segs0 with
      | error e => rw [hsegs] at h; exact absurd h (by simp)
      | ok r1 =>
          obtain ⟨vouts, h1, d1⟩ := r1
          rw [hsegs] at h
          dsimp only at h
          cases hrest : alignVids md h1 rest with
          | error e => rw [hrest] at h; exact absurd h (by simp)
          | ok r2 =>
              rcases List.mem_cons.1 hm with he | ht
              · simp only [Prod.mk.injEq] at he
                obtain ⟨hv, hs⟩ := he
                subst hv
                subst hs
                exact ⟨hist, _, hsegs⟩
              · exact ih hrest ht

theorem alignAll_ok_modality {pivot : String} {al : Alignments} :
    ∀ {fd : FeatDict} {res : List (String × AlignedOut × Hist)},
    alignAll pivot al fd = .ok res →
    ∀ {m : String} {md : ModalityDict}, (m, md) ∈ fd → m ≠ pivot →
    ∃ r, align_modality md al = .ok r := by
  intro fd
  induction fd with
  | nil =>
      intro res h m md hm hne
      exact absurd hm (by simp)
  | cons p rest ih =>
      obtain ⟨m0, md0⟩ := p
      intro res h m md hm hne
      rw [alignAll] at h
      by_cases hp : m0 = pivot
      · rw [if_pos hp] at h
        rcases List.mem_cons.1 hm with he | ht
        · simp only [Prod.mk.injEq] at he
          obtain ⟨hme, -⟩ := he
          exact absurd (hme.trans hp) hne
        · exact ih h ht hne
      · rw [if_neg hp] at h
        cases ham : align_modality md0 al with
        | error e => rw [ham] at h; exact absurd h (by simp)
        | ok r1 =>
            obtain ⟨o0, d0⟩ := r1
            rw [ham] at h
            dsimp only at h
            cases hrest : alignAll pivot al rest with
            | error e => rw [hrest] at h; exact absurd h (by simp)
            | ok r2 =>
                rcases List.mem_cons.1 hm with he | ht
                · simp only [Prod.mk.injEq] at he
                  obtain ⟨-, hmd⟩ := he
                  subst hmd
                  exact ⟨_, ham⟩
                · exact ih hrest ht hne

/-- C5 (amended): alignment fails with an error propagated to the caller
whenever a non-pivot modality's dictionary has no entry for a (video,
segment) that the pivot's alignment grid references with at least one grid
interval. -/
theorem c5_missing_target_fails (fd : FeatDict) (pivot : String)
    (pd md : ModalityDict) (al : Alignments) (m vid sid : String)
    (segs : List (String × Grid)) (ts te : ℚ) (rest : Grid)
    (hpd : alookup pivot fd = some pd)
    (hal : get_alignments pd = .ok al)
    (hmem : (m, md) ∈ fd) (hne : m ≠ pivot)
    (hvid : (vid, segs) ∈ al) (hsid : (sid, (ts, te) :: rest) ∈ segs)
    (hmiss : lookupSeg md vid sid = none) :
    ∃ err, align fd pivot = .error err := by
  cases hrun : align fd pivot with
  | error e => exact ⟨e, rfl⟩
  | ok res =>
      exfalso
      rw [align, hpd] at hrun
      dsimp only at hrun
      rw [hal] at hrun
      dsimp only at hrun
      obtain ⟨r, hmod⟩ := alignAll_ok_modality hrun hmem hne
      rw [align_modality] at hmod
      rcases hv : alignVids md [] al with e | rv
      · rw [hv] at hmod; simp at hmod
      · obtain ⟨h1, r1, hsegs⟩ := alignVids_ok_all hv hvid
        obtain ⟨h2, r2, hseg⟩ := alignSegs_ok_all hsegs hsid
        have := alignSegment_cons_ok_lookup hseg
        rw [hmiss] at this
        simp at this

theorem c5_missing_target_witness :
    ∃ err, align fdMissing "modality_0" = .error err :=
  c5_missing_target_fails fdMissing "modality_0"
    [("v", [("1", some [⟨0, 1, [1]⟩]), ("2", some [⟨1, 2, [1]⟩])])]
    [("v", [("1", some [⟨0, 1, [2]⟩])])]
    [("v", [("1", [(0, 1)]), ("2", [(1, 2)])])]
    "modality_1" "v" "2" [("1", [(0, 1)]), ("2", [(1, 2)])] 1 2 []
    (by simp [alookup, fdMissing])
    (by simp [get_alignments, getSegAlign])
    (by simp [fdMissing])
    (by decide)
    (by simp)
    (by simp)
    (by simp [lookupSeg, alookup])

/-- C5 counterexample: the claim as stated is false — here the pivot
`modality_0` has no entry for `("v", "2")` which `modality_1` references,
yet `align` succeeds (the iteration is driven by the pivot's own entries, so
the extra segment is silently skipped, not a lookup error). -/
theorem c5_counterexample :
    alookup "modality_0" fdSmall = some [("v", [("1", some [⟨0, 1, [1]⟩])])] ∧
    lookupSeg [("v", [("1", some [⟨0, 1, [1]⟩])])] "v" "2" = none ∧
    lookupSeg [("v", [("1", some [⟨0, 1, [2]⟩]), ("2", some [⟨1, 2, [3]⟩])])]
        "v" "2" = some (some [⟨1, 2, [3]⟩]) ∧
    align fdSmall "modality_0" =
      .ok [("modality_1", [("v", [("1", [⟨0, 1, [2]⟩])])], [])] := by
  refine ⟨by simp [alookup, fdSmall], by simp [lookupSeg, alookup],
    by simp [lookupSeg, alookup], ?_⟩
  norm_num [align, alignAll, get_alignments, getSegAlign, align_modality,
    alignVids, alignSegs, alignSegment, alignInterval,
    lookupSeg, alookup, resample, resampleAux, addVec, scaleVec, zeros,
    pymin, pymax, fdSmall]
  decide

theorem keyMem_addSeg (r : Row) : ∀ (info : DInfo) (v s : String),
    keyMem (addSeg info r) v s =
      (keyMem info v s ||
        (decide (v = r.video_id) && decide (s = r.segment_id))) := by
  intro info
  induction info with
  | nil =>
      intro v s
      by_cases hv : r.video_id = v
      · subst hv
        by_cases hs : r.segment_id = s
        · subst hs
          simp [addSeg, keyMem, alookup]
        · simp [addSeg, keyMem, alookup, hs, Ne.symm hs]
      · simp [addSeg, keyMem, alookup, hv, Ne.symm hv]
  | cons p rest ih =>
      obtain ⟨v0, segs⟩ := p
      intro v s
      rw [addSeg]
      by_cases hv0 : v0 = r.video_id
      · rw [if_pos hv0]
        by_cases hv : v0 = v
        · have hvid : v = r.video_id := hv.symm.trans hv0
          by_cases hs : s = r.segment_id
          · simp [keyMem, alookup, hv, hs, hvid]
          · simp [keyMem, alookup, hv, hs, hvid, Ne.symm hs]
        · have hvid : ¬v = r.video_id := fun h => hv (hv0.trans h.symm)
          simp [keyMem, alookup, hv, hvid]
      · rw [if_neg hv0]
        by_cases hv : v0 = v
        · have hvid : ¬v = r.video_id := fun h => hv0 (hv.trans h)
          simp [keyMem, alookup, hv, hvid]
        · have := ih v s
          simp only [keyMem, alookup, if_neg hv]
          simpa [keyMem] using this

theorem validateAux_ok_spec : ∀ (rows : List Row) (info info' : DInfo),
    validateAux info rows = .ok info' →
    (rows.map (fun r => (r.video_id, r.segment_id))).Nodup ∧
    ∀ r ∈ rows, keyMem info r.video_id r.segment_id = false := by
  intro rows
  induction rows with
  | nil =>
      intro info info' h
      simp
  | cons r rs ih =>
      intro info info' h
      rw [validateAux] at h
      cases hins : insertRow info r with
      | error e => rw [hins] at h; exact absurd h (by simp)
      | ok info1 =>
          rw [hins] at h
          dsimp only at h
          have hk : keyMem info r.video_id r.segment_id = false ∧
              info1 = addSeg info r := by
            rw [insertRow] at hins
            by_cases hkk : keyMem info r.video_id r.segment_id = true
            · rw [if_pos hkk] at hins; exact absurd hins (by simp)
            · rw [if_neg hkk] at hins
              simp at hins
              exact ⟨by simpa using hkk, hins.symm⟩
          obtain ⟨hkf, hinfo1⟩ := hk
          subst hinfo1
          obtain ⟨hnod, hall⟩ := ih (addSeg info r) info' h
          constructor
          · rw [List.map_cons, List.nodup_cons]
            refine ⟨?_, hnod⟩
            intro hmem
            obtain ⟨r', hr', hkey⟩ := List.mem_map.1 hmem
            have := hall r' hr'
            rw [keyMem_addSeg] at this
            simp only [Prod.mk.injEq] at hkey
            rw [hkey.1, hkey.2] at this
            simp at this
          · intro r' hr'
            rcases List.mem_cons.1 hr' with he | ht
            · subst he; exact hkf
            · have := hall r' ht
              rw [keyMem_addSeg] at this
              exact (Bool.or_eq_false_iff.1 this).1

theorem validateAux_error_shape : ∀ (rows : List Row) (info : DInfo) (e : PyErr),
    validateAux info rows = .error e → ∃ v s, e = .nameError v s := by
  intro rows
  induction rows with
  | nil =>
      intro info e h
      exact absurd h (by simp [validateAux])
  | cons r rs ih =>
      intro info e h
      rw [validateAux] at h
      cases hins : insertRow info r with
      | error e0 =>
          rw [hins] at h
          dsimp only at h
          rw [insertRow] at hins
          by_cases hkk : keyMem info r.video_id r.segment_id = true
          · rw [if_pos hkk] at hins
            simp at hins h
            exact ⟨r.video_id, r.segment_id, by rw [← h, ← hins]⟩
          · rw [if_neg hkk] at hins
            exact absurd hins (by simp)
      | ok info1 =>
          rw [hins] at h
          dsimp only at h
          exact ih info1 e h

/-- C6: a manifest whose data rows contain two rows sharing
`(video_id, segment_id)` makes `controller` raise the duplicate-segment
`NameError`, and the result is the same for every loader registry — no
loader is ever invoked. -/
theorem c6_duplicate_manifest (rows : List Row)
    (hdup : ¬ (rows.map (fun r => (r.video_id, r.segment_id))).Nodup) :
    ∃ v s, ∀ (mods : List (String × MInfo)) (registry : String → Loader)
      (ts : String), controller rows mods registry ts =
        .error (.nameError v s) := by
  cases hval : validate_file rows with
  | ok info => exact absurd (validateAux_ok_spec rows [] info hval).1 hdup
  | error e =>
      obtain ⟨v, s, he⟩ := validateAux_error_shape rows [] e hval
      exact ⟨v, s, fun mods registry ts => by
        simp [controller, hval, he]⟩

theorem c6_duplicate_witness :
    ∃ v s, ∀ (mods : List (String × MInfo)) (registry : String → Loader)
      (ts : String), controller rowsDup mods registry ts =
        .error (.nameError v s) :=
  c6_duplicate_manifest rowsDup (by simp [rowsDup])

theorem pymin_eq_min (a b : ℚ) : pymin a b = min a b := (min_def a b).symm

theorem pymax_eq_max (a b : ℚ) : pymax a b = max a b := (max_def a b).symm

theorem list_sum_map_div (l : List ℚ) (c : ℚ) :
    (l.map (fun x => x / c)).sum = l.sum / c := by
  induction l with
  | nil => simp
  | cons x xs ih => simp [ih, add_div]

theorem list_sum_map_mul {α : Type} (l : List α) (g : α → ℚ) (c : ℚ) :
    (l.map (fun x => c * g x)).sum = c * (l.map g).sum := by
  induction l with
  | nil => simp
  | cons x xs ih => simp [ih, mul_add]

theorem getD_scaleVec (c : ℚ) : ∀ (v : Vec) (i : Nat),
    (scaleVec c v).getD i 0 = c * v.getD i 0 := by
  intro v
  induction v with
  | nil => intro i; simp [scaleVec]
  | cons x xs ih =>
      intro i
      cases i with
      | zero => simp [scaleVec]
      | succ j => simpa [scaleVec] using ih j

theorem getD_zeros : ∀ (n : Nat) (i : Nat), (zeros n).getD i 0 = 0 := by
  intro n
  induction n with
  | zero => intro i; simp [zeros]
  | succ m ih =>
      intro i
      cases i with
      | zero => simp [zeros]
      | succ j => simp [zeros, List.replicate_succ]

theorem length_addVec (a b : Vec) :
    (addVec a b).length = min a.length b.length := by
  simp [addVec]

theorem getD_addVec : ∀ (a b : Vec), a.length = b.length →
    ∀ (i : Nat), (addVec a b).getD i 0 = a.getD i 0 + b.getD i 0 := by
  intro a
  induction a with
  | nil =>
      intro b hb i
      cases b with
      | nil => simp [addVec]
      | cons y ys => simp at hb
  | cons x xs ih =>
      intro b hb i
      cases b with
      | nil => simp at hb
      | cons y ys =>
          cases i with
          | zero => simp [addVec]
          | succ j =>
              simp at hb
              simpa [addVec] using ih ys hb j

theorem resampleAux_length {ts te : ℚ} {dim : Nat} :
    ∀ (feats : FeatureStream) (acc : Vec),
    (∀ f ∈ feats, f.v.length = dim) → acc.length = dim →
    (resampleAux ts te acc feats).length = dim := by
  intro feats
  induction feats with
  | nil => intro acc hall hacc; simpa [resampleAux] using hacc
  | cons f fs ih =>
      intro acc hall hacc
      rw [resampleAux]
      by_cases hc : f.s < te ∧ f.e ≥ ts
      · rw [if_pos hc]
        refine ih _ (fun g hg => hall g (List.mem_cons_of_mem _ hg)) ?_
        rw [length_addVec, hacc]
        simp [scaleVec, hall f (List.mem_cons_self _ _)]
      · rw [if_neg hc]
        exact ih _ (fun g hg => hall g (List.mem_cons_of_mem _ hg)) hacc

theorem resampleAux_getD {ts te : ℚ} {dim : Nat} :
    ∀ (feats : FeatureStream) (acc : Vec),
    (∀ f ∈ feats, f.v.length = dim) → acc.length = dim → ∀ (i : Nat),
    (resampleAux ts te acc feats).getD i 0 =
      acc.getD i 0 +
        ((feats.filter (fun f => decide (f.s < te ∧ f.e ≥ ts))).map
          (fun f => (pymin te f.e - pymax ts f.s) / (te - ts) *
            f.v.getD i 0)).sum := by
  intro feats
  induction feats with
  | nil => intro acc hall hacc i; simp [resampleAux]
  | cons f fs ih =>
      intro acc hall hacc i
      rw [resampleAux]
      by_cases hc : f.s < te ∧ f.e ≥ ts
      · rw [if_pos hc]
        have hlen : (addVec acc
            (scaleVec ((pymin te f.e - pymax ts f.s) / (te - ts)) f.v)).length
            = dim := by
          rw [length_addVec, hacc]
          simp [scaleVec, hall f (List.mem_cons_self _ _)]
        rw [ih _ (fun g hg => hall g (List.mem_cons_of_mem _ hg)) hlen i]
        rw [getD_addVec acc _
          (by rw [hacc]; simp [scaleVec, hall f (List.mem_cons_self _ _)]) i]
        rw [getD_scaleVec]
        have : List.filter (fun f => decide (f.s < te ∧ f.e ≥ ts)) (f :: fs)
            = f :: List.filter (fun f => decide (f.s < te ∧ f.e ≥ ts)) fs := by
          simp [List.filter_cons, hc]
        rw [this]
        simp [add_assoc]
      · rw [if_neg hc]
        rw [ih _ (fun g hg => hall g (List.mem_cons_of_mem _ hg)) hacc i]
        have : List.filter (fun f => decide (f.s < te ∧ f.e ≥ ts)) (f :: fs)
            = List.filter (fun f => decide (f.s < te ∧ f.e ≥ ts)) fs := by
          simp [List.filter_cons, hc]
        rw [this]

theorem wfoldr_length {dim : Nat} :
    ∀ (feats : FeatureStream), (∀ f ∈ feats, f.v.length = dim) →
    (feats.foldr (fun f acc => addVec (scaleVec (f.e - f.s) f.v) acc)
      (zeros dim)).length = dim := by
  intro feats
  induction feats with
  | nil => intro hall; simp [zeros]
  | cons f fs ih =>
      intro hall
      rw [List.foldr_cons, length_addVec,
        ih (fun g hg => hall g (List.mem_cons_of_mem _ hg))]
      simp [scaleVec, hall f (List.mem_cons_self _ _)]

theorem wfoldr_getD {dim : Nat} :
    ∀ (feats : FeatureStream), (∀ f ∈ feats, f.v.length = dim) → ∀ (i : Nat),
    (feats.foldr (fun f acc => addVec (scaleVec (f.e - f.s) f.v) acc)
      (zeros dim)).getD i 0 =
      (feats.map (fun f => (f.e - f.s) * f.v.getD i 0)).sum := by
  intro feats
  induction feats with
  | nil => intro hall i; simpa using getD_zeros dim i
  | cons f fs ih =>
      intro hall i
      rw [List.foldr_cons,
        getD_addVec _ _
          (by
            rw [wfoldr_length fs (fun g hg => hall g (List.mem_cons_of_mem _ hg))]
            simp [scaleVec, hall f (List.mem_cons_self _ _)]) i,
        getD_scaleVec, ih (fun g hg => hall g (List.mem_cons_of_mem _ hg)) i]
      simp

theorem list_ext_getD : ∀ (a b : Vec), a.length = b.length →
    (∀ i, a.getD i 0 = b.getD i 0) → a = b := by
  intro a
  induction a with
  | nil =>
      intro b hl h
      cases b with
      | nil => rfl
      | cons y ys => simp at hl
  | cons x xs ih =>
      intro b hl h
      cases b with
      | nil => simp at hl
      | cons y ys =>
          simp at hl
          have h0 := h 0
          simp at h0
          subst h0
          rw [ih ys hl (fun i => by simpa using h (i + 1))]

theorem weightSum_eq_cov (ts te : ℚ) (feats : FeatureStream) :
    weightSum ts te feats = coveredLen ts te feats / (te - ts) := by
  rw [weightSum, coveredLen, ← list_sum_map_div, List.map_map]
  rfl

/-- C8: the sum of the overlap weights the resampler applies on a grid
interval equals the covered fraction `f` of the interval, with no
renormalization (`coveredLen = f * span` gives `weightSum = f`); and for a
full exact tiling of `[ts, te)` by non-overlapping intervals the weight sum
is `1` and the resampled value is exactly the time-weighted mean of the
tiling values. -/
theorem c8_weights :
    (∀ (ts te : ℚ) (feats : FeatureStream) (f : ℚ),
      List.Pairwise (fun a b => a.e ≤ b.s ∨ b.e ≤ a.s) feats →
      te - ts ≠ 0 → coveredLen ts te feats = f * (te - ts) →
      weightSum ts te feats = f) ∧
    (∀ (ts te : ℚ) (feats : FeatureStream) (dim : Nat),
      ts < te →
      (∀ fi ∈ feats, ts ≤ fi.s ∧ fi.s < fi.e ∧ fi.e ≤ te ∧ fi.v.length = dim) →
      List.Pairwise (fun a b => a.e ≤ b.s ∨ b.e ≤ a.s) feats →
      (feats.map (fun fi => fi.e - fi.s)).sum = te - ts →
      weightSum ts te feats = 1 ∧
      resample ts te feats dim = specTimeWeightedMean feats dim) := by
  constructor
  · intro ts te feats f _hpw hspan hcov
    rw [weightSum_eq_cov, hcov, mul_div_cancel_right₀ f hspan]
  · intro ts te feats dim hlt hall _hpw hsum
    have hspan : te - ts ≠ 0 := sub_ne_zero.2 (ne_of_gt hlt)
    have hv : ∀ f ∈ feats, f.v.length = dim := fun f hf => (hall f hf).2.2.2
    have hfil : feats.filter (fun f => decide (f.s < te ∧ f.e ≥ ts)) = feats := by
      apply List.filter_eq_self.2
      intro a ha
      have h := hall a ha
      simp only [decide_eq_true_eq]
      exact ⟨lt_of_lt_of_le h.2.1 h.2.2.1, le_trans h.1 h.2.1.le⟩
    have hov : ∀ a ∈ feats, pymin te a.e - pymax ts a.s = a.e - a.s := by
      intro a ha
      have h := hall a ha
      rw [pymin_eq_min, pymax_eq_max, min_eq_right h.2.2.1, max_eq_right h.1]
    have hcov : coveredLen ts te feats = te - ts := by
      rw [coveredLen, hfil, List.map_congr_left hov, hsum]
    constructor
    · rw [weightSum_eq_cov, hcov, div_self hspan]
    · have hlenr : (resample ts te feats dim).length = dim :=
        resampleAux_length feats (zeros dim) hv (by simp [zeros])
      have hlens : (specTimeWeightedMean feats dim).length = dim := by
        simp only [specTimeWeightedMean, scaleVec, List.length_map]
        exact wfoldr_length feats hv
      apply list_ext_getD _ _ (hlenr.trans hlens.symm)
      intro i
      rw [resample, resampleAux_getD feats (zeros dim) hv (by simp [zeros]) i,
        getD_zeros, hfil, specTimeWeightedMean, getD_scaleVec,
        wfoldr_getD feats hv i, hsum]
      have helem : ∀ a ∈ feats,
          (pymin te a.e - pymax ts a.s) / (te - ts) * a.v.getD i 0 =
          1 / (te - ts) * ((a.e - a.s) * a.v.getD i 0) := by
        intro a ha
        rw [hov a ha]
        ring
      rw [List.map_congr_left helem, list_sum_map_mul]
      ring

theorem c8_weights_witness :
    weightSum 0 1 [⟨0, 1/2, [2]⟩] = 1/2 ∧
    (weightSum 0 1 [⟨0, 1/2, [2]⟩, ⟨1/2, 1, [4]⟩] = 1 ∧
    resample 0 1 [⟨0, 1/2, [2]⟩, ⟨1/2, 1, [4]⟩] 1 =
      specTimeWeightedMean [⟨0, 1/2, [2]⟩, ⟨1/2, 1, [4]⟩] 1) :=
  ⟨c8_weights.1 0 1 [⟨0, 1/2, [2]⟩] (1/2)
    (by simp)
    (by norm_num)
    (by norm_num [coveredLen, pymin, pymax]),
  c8_weights.2 0 1 [⟨0, 1/2, [2]⟩, ⟨1/2, 1, [4]⟩] 1
    (by norm_num)
    (by
      intro fi hfi
      rcases List.mem_cons.1 hfi with he | ht
      · subst he; norm_num
      · rcases List.mem_cons.1 ht with he | ht2
        · subst he; norm_num
        · exact absurd ht2 (by simp))
    (by
      refine List.pairwise_cons.2 ⟨?_, ?_⟩
      · intro b hb
        rcases List.mem_cons.1 hb with he | ht
        · subst he; left; norm_num
        · exact absurd ht (by simp)
      · simp)
    (by norm_num)⟩

theorem filterMap_congr_mem {α β : Type} :
    ∀ (l : List α) (f g : α → Option β), (∀ a ∈ l, f a = g a) →
    l.filterMap f = l.filterMap g := by
  intro l
  induction l with
  | nil => intro f g h; rfl
  | cons x xs ih =>
      intro f g h
      rw [List.filterMap_cons, List.filterMap_cons,
        h x (List.mem_cons_self _ _), ih f g (fun a ha => h a (List.mem_cons_of_mem _ ha))]

theorem shift_opensmile (vals : Vec) (start end_ : ℚ) (lvl : String) :
    load_opensmile vals start end_ "relative" lvl =
      Option.map (shiftStream start) (load_opensmile vals start end_ "absolute" lvl) := by
  by_cases hc : lvl = "s" ∨ start = 0
  · simp [load_opensmile, rebase, hc, shiftStream, shiftInterval]
  · simp [load_opensmile, rebase, hc]

theorem covarepGen_shift (p s : ℚ) : ∀ (rows : List Vec) (a : ℚ),
    covarepGen p (a - s) rows = shiftStream s (covarepGen p a rows) := by
  intro rows
  induction rows with
  | nil => intro a; simp [covarepGen, shiftStream]
  | cons v rest ih =>
      intro a
      have h1 : a - s + p = a + p - s := by ring
      rw [covarepGen, covarepGen, h1, ih (a + p)]
      simp [shiftStream, shiftInterval]

theorem shift_covarep (rows : List Vec) (start end_ : ℚ) (lvl : String) :
    load_covarep rows start end_ "relative" lvl =
      shiftStream start (load_covarep rows start end_ "absolute" lvl) := by
  have hz : (0 : ℚ) = start - start := by ring
  by_cases hl : lvl = "s"
  · simp only [load_covarep, rebase, if_pos hl, reduceIte, hz]
    exact covarepGen_shift _ start rows start
  · simp only [load_covarep, rebase, if_neg hl, reduceIte, hz]
    exact covarepGen_shift _ start _ start

theorem shift_phonemes (lines : List (List ℚ)) (start end_ : ℚ) (lvl : String) :
    load_phonemes lines start end_ "relative" lvl =
      shiftStream start (load_phonemes lines start end_ "absolute" lvl) := by
  by_cases hl : lvl = "s"
  · simp only [load_phonemes, rebase, if_pos hl, reduceIte, shiftStream,
      List.map_map]
    apply List.map_congr_left
    intro a _
    simp [shiftInterval]
    try ring
  · simp only [load_phonemes, rebase, if_neg hl, reduceIte, shiftStream,
      List.map_filterMap]
    apply filterMap_congr_mem
    intro a _
    by_cases hr : overlapRule (fld a 1) (fld a 2) start end_
    · simp [hr, shiftInterval]
      try ring
    · simp [hr]

theorem shift_embeddings (lines : List (List ℚ)) (start end_ : ℚ) (lvl : String) :
    load_embeddings lines start end_ "relative" lvl =
      shiftStream start (load_embeddings lines start end_ "absolute" lvl) := by
  by_cases hl : lvl = "s"
  · simp only [load_embeddings, rebase, if_pos hl, reduceIte, shiftStream,
      List.map_map]
    apply List.map_congr_left
    intro a _
    simp [shiftInterval]
    try ring
  · simp only [load_embeddings, rebase, if_neg hl, reduceIte, shiftStream,
      List.map_filterMap]
    apply filterMap_congr_mem
    intro a _
    by_cases hr : overlapRule (fld a 1) (fld a 2) start end_
    · simp [hr, shiftInterval]
      try ring
    · simp [hr]

theorem shift_words (lines : List (List ℚ)) (start end_ : ℚ) (lvl : String) :
    load_words lines start end_ "relative" lvl =
      shiftStream start (load_words lines start end_ "absolute" lvl) := by
  by_cases hl : lvl = "s"
  · simp only [load_words, rebase, if_pos hl, reduceIte, shiftStream,
      List.map_map]
    apply List.map_congr_left
    intro a _
    simp [shiftInterval]
    try ring
  · simp only [load_words, rebase, if_neg hl, reduceIte, shiftStream,
      List.map_filterMap]
    apply filterMap_congr_mem
    intro a _
    by_cases hr : overlapRule (fld a 1) (fld a 2) start end_
    · simp [hr, shiftInterval]
      try ring
    · simp [hr]

theorem shift_misc (lines : List (List ℚ)) (start end_ : ℚ) (lvl : String) :
    load_misc lines start end_ "relative" lvl =
      shiftStream start (load_misc lines start end_ "absolute" lvl) := by
  by_cases hl : lvl = "s"
  · simp only [load_misc, rebase, if_pos hl, reduceIte, shiftStream,
      List.map_map]
    apply List.map_congr_left
    intro a _
    simp [shiftInterval]
    try ring
  · simp only [load_misc, rebase, if_neg hl, reduceIte, shiftStream,
      List.map_filterMap]
    apply filterMap_congr_mem
    intro a _
    by_cases hr : overlapRule (fld a 0) (fld a 1) start end_
    · simp [hr, shiftInterval]
      try ring
    · simp [hr]

theorem shift_openface (lines : List (List ℚ)) (start end_ : ℚ) (lvl : String) :
    load_openface lines start end_ "relative" lvl =
      shiftStream start (load_openface lines start end_ "absolute" lvl) := by
  by_cases hl : lvl = "s"
  · simp only [load_openface, rebase, if_pos hl, reduceIte, shiftStream,
      List.map_map]
    apply List.map_congr_left
    intro a _
    simp [shiftInterval]
    try ring
  · simp only [load_openface, rebase, if_neg hl, reduceIte, shiftStream,
      List.map_filterMap]
    apply filterMap_congr_mem
    intro a _
    by_cases hr : fld a 1 ≥ start ∧ fld a 1 < end_
    · simp [hr, shiftInterval]
      try ring
    · simp [hr]

theorem shift_old_facet (lines : List (List ℚ)) (start end_ : ℚ) (lvl : String) :
    load_old_facet lines start end_ "relative" lvl =
      shiftStream start (load_old_facet lines start end_ "absolute" lvl) := by
  by_cases hl : lvl = "s"
  · simp only [load_old_facet, rebase, if_pos hl, reduceIte, shiftStream,
      List.map_map]
    apply List.map_congr_left
    intro a _
    simp [shiftInterval]
    try ring
  · simp only [load_old_facet, rebase, if_neg hl, reduceIte, shiftStream,
      List.map_filterMap]
    apply filterMap_congr_mem
    intro a _
    by_cases hr : fld a 0 ≥ start ∧ fld a 0 < end_
    · simp [hr, shiftInterval]
      try ring
    · simp [hr]

theorem shift_facet (lines : List (List ℚ)) (start end_ : ℚ) (lvl : String) :
    load_facet lines start end_ "relative" lvl =
      shiftStream start (load_facet lines start end_ "absolute" lvl) := by
  by_cases hl : lvl = "s"
  · simp only [load_facet, rebase, if_pos hl, reduceIte, shiftStream,
      List.map_map]
    apply List.map_congr_left
    intro a _
    simp [shiftInterval]
    try ring
  · simp only [load_facet, rebase, if_neg hl, reduceIte, shiftStream,
      List.map_filterMap]
    apply filterMap_congr_mem
    intro a _
    by_cases hr : fld a 0 ≥ start ∧ fld a 0 < end_
    · simp [hr, shiftInterval]
      try ring
    · simp [hr]

theorem shift_facet1 (lines : List (List ℚ)) (start end_ : ℚ) (lvl : String) :
    load_facet1 lines start end_ "relative" lvl =
      shiftStream start (load_facet1 lines start end_ "absolute" lvl) := by
  by_cases hl : lvl = "s"
  · simp only [load_facet1, rebase, if_pos hl, reduceIte, shiftStream,
      List.map_map]
    apply List.map_congr_left
    intro a _
    simp [shiftInterval]
    try ring
  · simp only [load_facet1, rebase, if_neg hl, reduceIte, shiftStream,
      List.map_filterMap]
    apply filterMap_congr_mem
    intro a _
    by_cases hr : fld a 1 ≥ start ∧ fld a 1 < end_
    · simp [hr, shiftInterval]
      try ring
    · simp [hr]

theorem shift_facet2 (lines : List (List ℚ)) (start end_ : ℚ) (lvl : String) :
    load_facet2 lines start end_ "relative" lvl =
      shiftStream start (load_facet2 lines start end_ "absolute" lvl) := by
  by_cases hl : lvl = "s"
  · simp only [load_facet2, rebase, if_pos hl, reduceIte, shiftStream,
      List.map_map]
    apply List.map_congr_left
    intro a _
    simp [shiftInterval]
    try ring
  · simp only [load_facet2, rebase, if_neg hl, reduceIte, shiftStream,
      List.map_filterMap]
    apply filterMap_congr_mem
    intro a _
    by_cases hr : fld a 1 ≥ start ∧ fld a 1 < end_
    · simp [hr, shiftInterval]
      try ring
    · simp [hr]


theorem alookup_map {α β : Type} (g : α → β) (k : String) :
    ∀ (l : List (String × α)),
    alookup k (l.map (fun p => (p.1, g p.2))) = (alookup k l).map g := by
  intro l
  induction l with
  | nil => rfl
  | cons p rest ih =>
      obtain ⟨k0, x⟩ := p
      by_cases hk : k0 = k
      · simp [alookup, hk]
      · simp [alookup, hk, ih]

theorem lookupSeg_shift (s : ℚ) (md : ModalityDict) (vid sid : String) :
    lookupSeg (shiftDict s md) vid sid =
      (lookupSeg md vid sid).map (Option.map (shiftStream s)) := by
  rw [lookupSeg, lookupSeg, shiftDict, alookup_map]
  cases h : alookup vid md with
  | none => rfl
  | some segs => simp [alookup_map]

theorem resampleAux_shift (s ts te : ℚ) : ∀ (feats : FeatureStream) (acc : Vec),
    resampleAux (ts - s) (te - s) acc (shiftStream s feats) =
      resampleAux ts te acc feats := by
  intro feats
  induction feats with
  | nil => intro acc; rfl
  | cons f fs ih =>
      intro acc
      have hcons : shiftStream s (f :: fs) =
          shiftInterval s f :: shiftStream s fs := rfl
      rw [hcons, resampleAux, resampleAux]
      by_cases hc : f.s < te ∧ f.e ≥ ts
      · have hc' : (shiftInterval s f).s < te - s ∧
            (shiftInterval s f).e ≥ ts - s := by
          simp only [shiftInterval]
          exact ⟨by linarith [hc.1], by linarith [hc.2]⟩
        rw [if_pos hc', if_pos hc]
        have hw : (pymin (te - s) (shiftInterval s f).e -
              pymax (ts - s) (shiftInterval s f).s) /
              (te - s - (ts - s)) =
            (pymin te f.e - pymax ts f.s) / (te - ts) := by
          simp only [shiftInterval, pymin_eq_min, pymax_eq_max,
            min_sub_sub_right, max_sub_sub_right]
          ring_nf
        rw [show (shiftInterval s f).v = f.v from rfl, hw]
        exact ih _
      · have hc' : ¬((shiftInterval s f).s < te - s ∧
            (shiftInterval s f).e ≥ ts - s) := by
          simp only [shiftInterval]
          intro hcc
          exact hc ⟨by linarith [hcc.1], by linarith [hcc.2]⟩
        rw [if_neg hc', if_neg hc]
        exact ih _

theorem alignInterval_shift (s : ℚ) (md : ModalityDict) (vid sid : String)
    (hist : Hist) (ts te : ℚ) :
    alignInterval (shiftDict s md) vid sid hist (ts - s) (te - s) =
      Except.map (fun r => (shiftInterval s r.1, r.2))
        (alignInterval md vid sid hist ts te) := by
  have hls := lookupSeg_shift s md vid sid
  cases h0 : lookupSeg md vid sid with
  | none =>
      rw [h0] at hls
      simp [alignInterval, hls, h0, Except.map]
  | some s0 =>
      rw [h0] at hls
      cases s0 with
      | none =>
          cases hn : pyParseInt sid with
          | none => simp [alignInterval, hls, h0, hn, Except.map]
          | some n =>
              have hlp := lookupSeg_shift s md vid (toString (n - 1))
              cases hp : lookupSeg md vid (toString (n - 1)) with
              | none =>
                  rw [hp] at hlp
                  simp [alignInterval, hls, h0, hn, hp, hlp, Except.map]
              | some p0 =>
                  rw [hp] at hlp
                  cases p0 with
                  | none => simp [alignInterval, hls, h0, hn, hp, hlp, Except.map]
                  | some pl =>
                      cases pl with
                      | nil =>
                          simp [alignInterval, hls, h0, hn, hp, hlp, Except.map,
                            shiftStream]
                      | cons f fs =>
                          simp [alignInterval, hls, h0, hn, hp, hlp, Except.map,
                            shiftStream, shiftInterval, resample]
                          rw [show FeatInterval.mk (f.s - s) (f.e - s) f.v =
                            shiftInterval s f from rfl,
                            show List.map (shiftInterval s) fs =
                              shiftStream s fs from rfl,
                            show shiftInterval s f :: shiftStream s fs =
                              shiftStream s (f :: fs) from rfl,
                            resampleAux_shift]
      | some sl =>
          cases sl with
          | nil =>
              cases hn : pyParseInt sid with
              | none => simp [alignInterval, hls, h0, hn, Except.map, shiftStream]
              | some n =>
                  have hlp := lookupSeg_shift s md vid (toString (n - 1))
                  cases hp : lookupSeg md vid (toString (n - 1)) with
                  | none =>
                      rw [hp] at hlp
                      simp [alignInterval, hls, h0, hn, hp, hlp, Except.map,
                        shiftStream]
                  | some p0 =>
                      rw [hp] at hlp
                      cases p0 with
                      | none =>
                          simp [alignInterval, hls, h0, hn, hp, hlp, Except.map,
                            shiftStream]
                      | some pl =>
                          cases pl with
                          | nil =>
                              simp [alignInterval, hls, h0, hn, hp, hlp,
                                Except.map, shiftStream]
                          | cons f fs =>
                              simp [alignInterval, hls, h0, hn, hp, hlp,
                                Except.map, shiftStream, shiftInterval, resample]
                              rw [show FeatInterval.mk (f.s - s) (f.e - s) f.v =
                                shiftInterval s f from rfl,
                                show List.map (shiftInterval s) fs =
                                  shiftStream s fs from rfl,
                                show shiftInterval s f :: shiftStream s fs =
                                  shiftStream s (f :: fs) from rfl,
                                resampleAux_shift]
          | cons f fs =>
              simp [alignInterval, hls, h0, Except.map, shiftStream,
                shiftInterval, resample]
              rw [show FeatInterval.mk (f.s - s) (f.e - s) f.v =
                shiftInterval s f from rfl,
                show List.map (shiftInterval s) fs = shiftStream s fs from rfl,
                show shiftInterval s f :: shiftStream s fs =
                  shiftStream s (f :: fs) from rfl,
                resampleAux_shift]

theorem alignSegment_shift (s : ℚ) (md : ModalityDict) (vid sid : String) :
    ∀ (grid : Grid) (hist : Hist),
    alignSegment (shiftDict s md) vid sid hist
        (grid.map (fun iv => (iv.1 - s, iv.2 - s))) =
      Except.map (fun r => (shiftStream s r.1, r.2))
        (alignSegment md vid sid hist grid) := by
  intro grid
  induction grid with
  | nil => intro hist; simp [alignSegment, Except.map, shiftStream]
  | cons iv rest ih =>
      obtain ⟨ts, te⟩ := iv
      intro hist
      rw [List.map_cons, alignSegment, alignSegment, alignInterval_shift]
      cases hai : alignInterval md vid sid hist ts te with
      | error e => simp [Except.map]
      | ok r =>
          obtain ⟨fi, h1, d1⟩ := r
          simp only [Except.map, ih]
          cases hrest : alignSegment md vid sid h1 rest with
          | error e => simp [Except.map]
          | ok r2 =>
              obtain ⟨out, h2, d2⟩ := r2
              simp [Except.map, shiftStream]

theorem alignSegs_shift (s : ℚ) (md : ModalityDict) (vid : String) :
    ∀ (segs : List (String × Grid)) (hist : Hist),
    alignSegs (shiftDict s md) vid hist
        (segs.map (fun sp => (sp.1, sp.2.map (fun iv => (iv.1 - s, iv.2 - s))))) =
      Except.map (fun r =>
          (r.1.map (fun op => (op.1, shiftStream s op.2)), r.2))
        (alignSegs md vid hist segs) := by
  intro segs
  induction segs with
  | nil => intro hist; simp [alignSegs, Except.map]
  | cons sp rest ih =>
      obtain ⟨sid, grid⟩ := sp
      intro hist
      rw [List.map_cons, alignSegs, alignSegs, alignSegment_shift]
      cases hseg : alignSegment md vid sid hist grid with
      | error e => simp [Except.map]
      | ok r =>
          obtain ⟨out, h1, d1⟩ := r
          simp only [Except.map, ih]
          cases hrest : alignSegs md vid h1 rest with
          | error e => simp [Except.map]
          | ok r2 =>
              obtain ⟨outs, h2, d2⟩ := r2
              simp [Except.map]

theorem alignVids_shift (s : ℚ) (md : ModalityDict) :
    ∀ (al : Alignments) (hist : Hist),
    alignVids (shiftDict s md) hist (shiftAl s al) =
      Except.map (fun r => (shiftOut s r.1, r.2)) (alignVids md hist al) := by
  intro al
  induction al with
  | nil => intro hist; simp [alignVids, shiftAl, shiftOut, Except.map]
  | cons vp rest ih =>
      obtain ⟨vid, segs⟩ := vp
      intro hist
      rw [shiftAl, List.map_cons]
      rw [alignVids, alignVids]
      rw [show (List.map (fun vp => (vp.1, List.map (fun sp =>
          (sp.1, List.map (fun iv => (iv.1 - s, iv.2 - s)) sp.2)) vp.2)) rest)
        = shiftAl s rest from rfl]
      rw [alignSegs_shift]
      cases hsegs : alignSegs md vid hist segs with
      | error e => simp [Except.map]
      | ok r =>
          obtain ⟨vouts, h1, d1⟩ := r
          simp only [Except.map, ih]
          cases hrest : alignVids md h1 rest with
          | error e => simp [Except.map]
          | ok r2 =>
              obtain ⟨outs, h2, d2⟩ := r2
              simp [Except.map, shiftOut]

theorem align_modality_shift (s : ℚ) (md : ModalityDict) (al : Alignments) :
    align_modality (shiftDict s md) (shiftAl s al) =
      Except.map (fun r => (shiftOut s r.1, r.2)) (align_modality md al) := by
  rw [align_modality, align_modality, alignVids_shift]
  cases hv : alignVids md [] al with
  | error e => simp [Except.map]
  | ok r =>
      obtain ⟨out, h1, d⟩ := r
      simp [Except.map]

/-- C7: every loader is timestamp-mode equivariant — its relative-mode
stream equals its absolute-mode stream with every boundary shifted down by
the segment start and identical values — and consequently the aligner is
too: aligning a shifted dictionary on a shifted grid yields the
absolute-mode aligned output with every boundary shifted down by the same
amount, with identical values and identical diagnostics. -/
theorem c7_timestamp_shift :
    (∀ (vals : Vec) (start end_ : ℚ) (lvl : String),
      load_opensmile vals start end_ "relative" lvl =
        Option.map (shiftStream start)
          (load_opensmile vals start end_ "absolute" lvl)) ∧
    (∀ (rows : List Vec) (start end_ : ℚ) (lvl : String),
      load_covarep rows start end_ "relative" lvl =
        shiftStream start (load_covarep rows start end_ "absolute" lvl)) ∧
    (∀ (lines : List (List ℚ)) (start end_ : ℚ) (lvl : String),
      load_phonemes lines start end_ "relative" lvl =
        shiftStream start (load_phonemes lines start end_ "absolute" lvl)) ∧
    (∀ (lines : List (List ℚ)) (start end_ : ℚ) (lvl : String),
      load_embeddings lines start end_ "relative" lvl =
        shiftStream start (load_embeddings lines start end_ "absolute" lvl)) ∧
    (∀ (lines : List (List ℚ)) (start end_ : ℚ) (lvl : String),
      load_words lines start end_ "relative" lvl =
        shiftStream start (load_words lines start end_ "absolute" lvl)) ∧
    (∀ (lines : List (List ℚ)) (start end_ : ℚ) (lvl : String),
      load_openface lines start end_ "relative" lvl =
        shiftStream start (load_openface lines start end_ "absolute" lvl)) ∧
    (∀ (lines : List (List ℚ)) (start end_ : ℚ) (lvl : String),
      load_old_facet lines start end_ "relative" lvl =
        shiftStream start (load_old_facet lines start end_ "absolute" lvl)) ∧
    (∀ (lines : List (List ℚ)) (start end_ : ℚ) (lvl : String),
      load_facet lines start end_ "relative" lvl =
        shiftStream start (load_facet lines start end_ "absolute" lvl)) ∧
    (∀ (lines : List (List ℚ)) (start end_ : ℚ) (lvl : String),
      load_facet1 lines start end_ "relative" lvl =
        shiftStream start (load_facet1 lines start end_ "absolute" lvl)) ∧
    (∀ (lines : List (List ℚ)) (start end_ : ℚ) (lvl : String),
      load_facet2 lines start end_ "relative" lvl =
        shiftStream start (load_facet2 lines start end_ "absolute" lvl)) ∧
    (∀ (lines : List (List ℚ)) (start end_ : ℚ) (lvl : String),
      load_misc lines start end_ "relative" lvl =
        shiftStream start (load_misc lines start end_ "absolute" lvl)) ∧
    (∀ (s : ℚ) (md : ModalityDict) (al : Alignments),
      align_modality (shiftDict s md) (shiftAl s al) =
        Except.map (fun r => (shiftOut s r.1, r.2)) (align_modality md al)) :=
  ⟨shift_opensmile, shift_covarep, shift_phonemes, shift_embeddings,
   shift_words, shift_openface, shift_old_facet, shift_facet, shift_facet1,
   shift_facet2, shift_misc, align_modality_shift⟩
end Dataset
